import Mathlib

/-!
Shallow embedding of the unified-diff utilities of `gambit-opentui`
(`sanitizePatchTargets`, `normalizePatchPath`, `splitUnifiedDiffByFile`,
`applyUnifiedDiff`).  Texts are modelled as `List Char`; a JS string that
may be `null` is modelled as `Option (List Char)`.  Fallible functions
return `Except String _`, the error string being the thrown message.
-/

namespace GambitPatch

/-- A single line of text (no newline characters by construction of `splitNl`). -/
abbrev Line := List Char

/-- `text.replace(/\r/g, "")`: drop every carriage return. -/
def removeCR (s : List Char) : List Char := s.filter (fun c => c ≠ '\r')

/-- `text.split("\n")`: JS split semantics, so the empty text gives `[""]`. -/
def splitNl : List Char → List Line
  | [] => [[]]
  | c :: rest =>
    if c = '\n' then [] :: splitNl rest
    else
      match splitNl rest with
      | [] => [[c]]
      | l :: ls => (c :: l) :: ls

/-- `lines.join("\n")`. -/
def joinNl : List Line → List Char
  | [] => []
  | [l] => l
  | l :: l2 :: ls => l ++ '\n' :: joinNl (l2 :: ls)

/-- The characters removed by JS `String.prototype.trim` (ECMAScript
WhiteSpace and LineTerminator code points). -/
def jsWhitespaceChars : List Char :=
  ['\t', Char.ofNat 11, Char.ofNat 12, ' ', Char.ofNat 160, Char.ofNat 0xFEFF,
   '\n', '\r', Char.ofNat 0x2028, Char.ofNat 0x2029, Char.ofNat 0x1680,
   Char.ofNat 0x2000, Char.ofNat 0x2001, Char.ofNat 0x2002, Char.ofNat 0x2003,
   Char.ofNat 0x2004, Char.ofNat 0x2005, Char.ofNat 0x2006, Char.ofNat 0x2007,
   Char.ofNat 0x2008, Char.ofNat 0x2009, Char.ofNat 0x200A, Char.ofNat 0x202F,
   Char.ofNat 0x205F, Char.ofNat 0x3000]

/-- Whether a character is JS whitespace (so that `c.trim() === ""`). -/
def jsWs (c : Char) : Bool := decide (c ∈ jsWhitespaceChars)

/-- `s.trim()`: strip JS whitespace from both ends. -/
def jsTrim (s : List Char) : List Char :=
  ((s.dropWhile jsWs).reverse.dropWhile jsWs).reverse

/-- `p.isPrefixOf s` as used for JS `s.startsWith(p)`. -/
def startsWith (p s : List Char) : Bool := List.isPrefixOf p s

def hdrAt : List Char := ("@@ ").data
def oldHdr : List Char := ("--- ").data
def newHdr : List Char := ("+++ ").data
def noNl : List Char := ("\\ No newline").data
def gitHdr : List Char := ("diff --git ").data
def devNull : List Char := ("/dev/null").data

/-- `normalizePatchPath` on a non-null JS string:
`rawPath.replace(/\\/g, "/").replace(/^\.\//, "").trim()`, then the
emptiness / `/dev/null` check, then stripping one leading `a/` or `b/`. -/
def normalizePatchPathStr (rawPath : List Char) : Option (List Char) :=
  if rawPath = [] then none
  else
    let slashed := rawPath.map (fun c => if c = '\\' then '/' else c)
    let deDotted := if startsWith (('.' :: '/' :: [])) slashed then slashed.drop 2 else slashed
    let trimmed := jsTrim deDotted
    if trimmed = [] ∨ trimmed = devNull then none
    else if startsWith (('a' :: '/' :: [])) trimmed ∨ startsWith (('b' :: '/' :: [])) trimmed then
      some (trimmed.drop 2)
    else some trimmed

/-- `normalizePatchPath` on a possibly-null argument. -/
def normalizePatchPath : Option (List Char) → Option (List Char)
  | none => none
  | some raw => normalizePatchPathStr raw

/-- The intermediate `normalizedTargets` set of `sanitizePatchTargets`:
`targets.filter(Boolean).map(v => normalizePatchPath(v) ?? v)`. -/
def normalizedTargets (targets : List (List Char)) : List (List Char) :=
  (targets.filter (fun t => t ≠ [])).map (fun v => (normalizePatchPathStr v).getD v)

/-- The `accepted` set of `sanitizePatchTargets`: for each element of
`normalizedTargets`, normalize again; if the result is truthy (a non-empty
path `r`), contribute `r`, `a/r` and `b/r`. -/
def acceptedPaths (targets : List (List Char)) : List (List Char) :=
  (normalizedTargets targets).flatMap (fun t =>
    match normalizePatchPathStr t with
    | some r => if r = [] then [] else [r, 'a' :: '/' :: r, 'b' :: '/' :: r]
    | none => [])

/-- `line.slice(4).split("\t")[0].trim()`: the path portion of a
`--- ` / `+++ ` header line. -/
def headerCandidate (line : List Char) : List Char :=
  jsTrim ((line.drop 4).takeWhile (fun c => c ≠ '\t'))

/-- The message of the path-violation error. -/
def pathViolationMsg (candidate : List Char) : String :=
  ("Patch references unexpected file path: ") ++ String.mk candidate

/-- The scanning loop of `sanitizePatchTargets` over the lines of the patch. -/
def scanSanitize (accepted : List (List Char)) : List (List Char) → Except String Unit
  | [] => .ok ()
  | line :: rest =>
    if startsWith oldHdr line ∨ startsWith newHdr line then
      let candidate := headerCandidate line
      if candidate = [] ∨ candidate = devNull then scanSanitize accepted rest
      else
        match normalizePatchPathStr candidate with
        | none => .error (pathViolationMsg candidate)
        | some nc =>
          if nc = [] then .error (pathViolationMsg candidate)
          else if nc ∈ accepted ∨ candidate ∈ accepted then scanSanitize accepted rest
          else .error (pathViolationMsg candidate)
    else scanSanitize accepted rest

/-- `sanitizePatchTargets(patchText, targets)` (array form of `targets`);
note the patch text is split on `"\n"` without carriage-return removal. -/
def sanitizePatchTargets (patchText : List Char) (targets : List (List Char)) :
    Except String Unit :=
  scanSanitize (acceptedPaths targets) (splitNl patchText)

/-- The condition under which a line of the patch makes
`sanitizePatchTargets` throw: a `--- `/`+++ ` header whose candidate is
non-empty, not `/dev/null`, and either normalizes to null/empty or is
(in both normalized and raw form) outside the accepted set. -/
def LineOffends (accepted : List (List Char)) (line : List Char) : Prop :=
  (startsWith oldHdr line = true ∨ startsWith newHdr line = true) ∧
  headerCandidate line ≠ [] ∧
  headerCandidate line ≠ devNull ∧
  ∀ nc, normalizePatchPathStr (headerCandidate line) = some nc →
    (nc = [] ∨ (nc ∉ accepted ∧ headerCandidate line ∉ accepted))

/-- Digits-to-number, `parseInt(ds, 10)` on a non-empty digit string. -/
def digitsToNat (ds : List Char) : Nat :=
  ds.foldl (fun acc c => acc * 10 + (c.toNat - ('0').toNat)) 0

/-- The `(?:,(\d+))?` part of the hunk-header regex: if the input starts
with a comma it must be followed by at least one digit (else the whole
match fails); otherwise nothing is consumed. -/
def parseOptComma (s : List Char) : Option (List Char) :=
  match s with
  | ',' :: rest =>
    if rest.takeWhile Char.isDigit = [] then none
    else some (rest.dropWhile Char.isDigit)
  | _ => some s

/-- `hunkHeaderPattern = /^@@ -(\d+)(?:,(\d+))? \+(\d+)(?:,(\d+))? @@/`;
returns the first capture group (`oldStart`) when the pattern matches a
prefix of the line. -/
def parseHunkHeader (line : List Char) : Option Nat :=
  match line with
  | '@' :: '@' :: ' ' :: '-' :: rest =>
    if rest.takeWhile Char.isDigit = [] then none
    else
      match parseOptComma (rest.dropWhile Char.isDigit) with
      | none => none
      | some s1 =>
        match s1 with
        | ' ' :: '+' :: rest2 =>
          if rest2.takeWhile Char.isDigit = [] then none
          else
            match parseOptComma (rest2.dropWhile Char.isDigit) with
            | none => none
            | some s2 =>
              match s2 with
              | ' ' :: '@' :: '@' :: _ => some (digitsToNat (rest.takeWhile Char.isDigit))
              | _ => none
        | _ => none
  | _ => none

def invalidHunkMsg (line : List Char) : String :=
  ("Invalid hunk header: ") ++ String.mk line

def hunkExceedsMsg : String := "Patch hunk exceeds original file length."

def ctxMismatchMsg (expected actual : List Char) : String :=
  ("Context mismatch while applying patch.\nExpected: \"") ++ String.mk expected ++
    ("\"\nActual: \"") ++ String.mk actual ++ ("\"")

def delMismatchMsg (payload actual : List Char) : String :=
  ("Deletion mismatch while applying patch.\nExpected to delete: \"") ++ String.mk payload ++
    ("\"\nFound: \"") ++ String.mk actual ++ ("\"")

def unsupportedMsg (line : List Char) : String :=
  ("Unsupported patch line: ") ++ String.mk line

/-- The catch-up loop `while (sourceIndex < startOld) ...` of
`applyUnifiedDiff`, phrased on the remaining iteration count
`startOld - sourceIndex` (the cursor rises by one per iteration, so the
count falls by one; the loop body is otherwise verbatim). -/
def catchUpAux (src : List Line) : Nat → List Line → Nat → Except String (List Line × Nat)
  | 0, out, idx => .ok (out, idx)
  | k + 1, out, idx =>
    match src.get? idx with
    | none => .error hunkExceedsMsg
    | some originalLine => catchUpAux src k (out ++ [originalLine]) (idx + 1)

/-- Copy source lines verbatim up to `startOld`, failing when the cursor
would read past the end of the source. -/
def catchUp (src : List Line) (startOld : Nat) (out : List Line) (idx : Nat) :
    Except String (List Line × Nat) :=
  catchUpAux src (startOld - idx) out idx

/-- The two nested loops of `applyUnifiedDiff` merged into one pass over
the patch lines.  The `Bool` is the mode: `false` scans for a hunk header
(`continue` on anything else), `true` is inside a hunk body.  The source's
`i--; break` on a boundary line returns that very line to the outer loop:
a `@@ ` line immediately starts the next hunk (in both modes the code is
the header branch), while a `--- `/`+++ ` boundary line is skipped by the
outer loop, i.e. the machine drops it and falls back to scanning mode. -/
def runPatch (src : List Line) : Bool → List Line → List Line → Nat →
    Except String (List Line × Nat)
  | _, [], out, idx => .ok (out, idx)
  | false, line :: rest, out, idx =>
    if startsWith hdrAt line then
      match parseHunkHeader line with
      | none => .error (invalidHunkMsg line)
      | some oldStart =>
        match catchUp src (oldStart - 1) out idx with
        | .error e => .error e
        | .ok (out2, idx2) => runPatch src true rest out2 idx2
    else runPatch src false rest out idx
  | true, [] :: rest, out, idx => runPatch src true rest out idx
  | true, (c :: cs) :: rest, out, idx =>
    if startsWith hdrAt (c :: cs) then
      match parseHunkHeader (c :: cs) with
      | none => .error (invalidHunkMsg (c :: cs))
      | some oldStart =>
        match catchUp src (oldStart - 1) out idx with
        | .error e => .error e
        | .ok (out2, idx2) => runPatch src true rest out2 idx2
    else if startsWith oldHdr (c :: cs) ∨ startsWith newHdr (c :: cs) then
      runPatch src false rest out idx
    else if startsWith noNl (c :: cs) then runPatch src true rest out idx
    else if c = ' ' then
      if cs = src.getD idx [] then runPatch src true rest (out ++ [src.getD idx []]) (idx + 1)
      else .error (ctxMismatchMsg cs (src.getD idx []))
    else if c = '-' then
      if cs = src.getD idx [] then runPatch src true rest out (idx + 1)
      else .error (delMismatchMsg cs (src.getD idx []))
    else if c = '+' then runPatch src true rest (out ++ [cs]) idx
    else if jsWs c then runPatch src true rest (out ++ [[]]) idx
    else .error (unsupportedMsg (c :: cs))

/-- `applyUnifiedDiff(baseText, diffText)`: normalize CRs away, split into
lines, run the hunk machine, then copy the remaining source lines and
join with `"\n"`. -/
def applyUnifiedDiff (baseText diffText : List Char) : Except String (List Char) :=
  let sourceLines := splitNl (removeCR baseText)
  let patchLines := splitNl (removeCR diffText)
  match runPatch sourceLines false patchLines [] 0 with
  | .error e => .error e
  | .ok (out, idx) => .ok (joinNl (out ++ sourceLines.drop idx))

/-- The record returned per file segment by `splitUnifiedDiffByFile`. -/
structure ParsedFilePatch where
  patchText : List Char
  oldPath : Option (List Char)
  newPath : Option (List Char)
  rawOldPath : Option (List Char)
  rawNewPath : Option (List Char)
deriving DecidableEq

/-- The mutable state of `splitUnifiedDiffByFile`: emitted segments plus
`buffer`, `rawOld`, `rawNew`, `recording`. -/
structure SplitState where
  acc : List ParsedFilePatch
  buffer : List Line
  rawOld : Option (List Char)
  rawNew : Option (List Char)
  recording : Bool
deriving DecidableEq

/-- The `pushPatch` closure: when recording, emit the buffered segment and
reset; otherwise just reset the buffer and raw paths. -/
def pushPatch (st : SplitState) : SplitState :=
  if st.recording then
    { acc := st.acc ++
        [{ patchText := joinNl st.buffer,
           rawOldPath := st.rawOld, rawNewPath := st.rawNew,
           oldPath := normalizePatchPath st.rawOld,
           newPath := normalizePatchPath st.rawNew }],
      buffer := [], rawOld := none, rawNew := none, recording := false }
  else { st with buffer := [], rawOld := none, rawNew := none }

/-- The trailing `--- ` / `+++ ` raw-path update of the loop body. -/
def updateRaw (st : SplitState) (line : List Char) : SplitState :=
  if startsWith oldHdr line then { st with rawOld := some (headerCandidate line) }
  else if startsWith newHdr line then { st with rawNew := some (headerCandidate line) }
  else st

/-- One iteration of the `for (const line of lines)` loop of
`splitUnifiedDiffByFile` (the `continue` paths skip `updateRaw`). -/
def splitStep (st : SplitState) (line : List Char) : SplitState :=
  if startsWith gitHdr line then
    let st1 := pushPatch st
    { st1 with buffer := [line], recording := true }
  else if st.recording = false then
    if startsWith oldHdr line ∨ startsWith newHdr line ∨ startsWith hdrAt line then
      updateRaw { st with buffer := [line], recording := true } line
    else st
  else updateRaw { st with buffer := st.buffer ++ [line] } line

/-- `splitUnifiedDiffByFile(patchText)`. -/
def splitUnifiedDiffByFile (patchText : List Char) : List ParsedFilePatch :=
  let lines := splitNl (removeCR patchText)
  let stFinal := lines.foldl splitStep
    { acc := [], buffer := [], rawOld := none, rawNew := none, recording := false }
  (pushPatch stFinal).acc.filter (fun seg => seg.rawOldPath ≠ none ∨ seg.rawNewPath ≠ none)

/-! ### Basic lemmas about the text utilities -/

theorem startsWith_nil_left (s : List Char) : startsWith [] s = true := by
  cases s <;> rfl

theorem startsWith_cons_nil (p : Char) (ps : List Char) : startsWith (p :: ps) [] = false := rfl

theorem startsWith_cons_cons (p c : Char) (ps s : List Char) :
    startsWith (p :: ps) (c :: s) = ((p == c) && startsWith ps s) := rfl

theorem splitNl_ne_nil (s : List Char) : splitNl s ≠ [] := by
  cases s with
  | nil => simp [splitNl]
  | cons c rest =>
    by_cases h : c = '\n'
    · simp [splitNl, h]
    · simp only [splitNl, if_neg h]
      cases hs : splitNl rest with
      | nil => simp
      | cons l ls => simp

theorem joinNl_splitNl (s : List Char) : joinNl (splitNl s) = s := by
  induction s with
  | nil => rfl
  | cons c rest ih =>
    by_cases h : c = '\n'
    · subst h
      simp only [splitNl, if_pos rfl]
      obtain ⟨l, ls, hls⟩ := List.exists_cons_of_ne_nil (splitNl_ne_nil rest)
      rw [hls] at ih ⊢
      simpa [joinNl] using ih
    · simp only [splitNl, if_neg h]
      cases hs : splitNl rest with
      | nil => exact absurd hs (splitNl_ne_nil rest)
      | cons l ls =>
        rw [hs] at ih
        cases ls with
        | nil => simpa [joinNl] using congrArg (c :: ·) ih
        | cons l2 ls2 => simpa [joinNl] using congrArg (c :: ·) ih

theorem mem_of_mem_splitNl {c : Char} {s : List Char} :
    ∀ {l : List Char}, l ∈ splitNl s → c ∈ l → c ∈ s := by
  induction s with
  | nil =>
    intro l hl hc
    simp [splitNl] at hl
    subst hl
    cases hc
  | cons ch rest ih =>
    intro l hl hc
    by_cases h : ch = '\n'
    · subst h
      rw [splitNl, if_pos rfl] at hl
      rcases List.mem_cons.mp hl with hl | hl
      · subst hl; cases hc
      · exact List.mem_cons_of_mem _ (ih hl hc)
    · simp only [splitNl, if_neg h] at hl
      cases hs : splitNl rest with
      | nil => exact absurd hs (splitNl_ne_nil rest)
      | cons l1 ls =>
        rw [hs] at hl
        rcases List.mem_cons.mp hl with hl | hl
        · subst hl
          rcases List.mem_cons.mp hc with hc | hc
          · subst hc; exact List.mem_cons_self _ _
          · exact List.mem_cons_of_mem _ (ih (hs ▸ List.mem_cons_self l1 ls) hc)
        · exact List.mem_cons_of_mem _ (ih (hs ▸ List.mem_cons_of_mem _ hl) hc)

theorem splitNl_no_nl {s : List Char} : ∀ {l : List Char}, l ∈ splitNl s → '\n' ∉ l := by
  induction s with
  | nil =>
    intro l hl
    simp [splitNl] at hl
    subst hl
    simp
  | cons ch rest ih =>
    intro l hl
    by_cases h : ch = '\n'
    · subst h
      rw [splitNl, if_pos rfl] at hl
      rcases List.mem_cons.mp hl with hl | hl
      · subst hl; simp
      · exact ih hl
    · simp only [splitNl, if_neg h] at hl
      cases hs : splitNl rest with
      | nil => exact absurd hs (splitNl_ne_nil rest)
      | cons l1 ls =>
        rw [hs] at hl
        rcases List.mem_cons.mp hl with hl | hl
        · subst hl
          intro hmem
          rcases List.mem_cons.mp hmem with hmem | hmem
          · exact h hmem.symm
          · exact ih (hs ▸ List.mem_cons_self l1 ls) hmem
        · exact ih (hs ▸ List.mem_cons_of_mem _ hl)

theorem splitNl_single {l : List Char} (h : '\n' ∉ l) : splitNl l = [l] := by
  induction l with
  | nil => rfl
  | cons c rest ih =>
    have hc : c ≠ '\n' := fun hcc => h (by rw [hcc]; exact List.mem_cons_self _ _)
    have hrest : '\n' ∉ rest := fun hm => h (List.mem_cons_of_mem _ hm)
    simp only [splitNl, if_neg hc, ih hrest]

theorem splitNl_append_nl {l : List Char} (t : List Char) (h : '\n' ∉ l) :
    splitNl (l ++ '\n' :: t) = l :: splitNl t := by
  induction l with
  | nil => simp [splitNl]
  | cons c rest ih =>
    have hc : c ≠ '\n' := fun hcc => h (by rw [hcc]; exact List.mem_cons_self _ _)
    have hrest : '\n' ∉ rest := fun hm => h (List.mem_cons_of_mem _ hm)
    rw [List.cons_append, splitNl, if_neg hc, ih hrest]

theorem splitNl_joinNl : ∀ {ls : List Line}, ls ≠ [] → (∀ l ∈ ls, '\n' ∉ l) →
    splitNl (joinNl ls) = ls
  | [], h, _ => absurd rfl h
  | [l], _, hnl => by
    simpa [joinNl] using splitNl_single (hnl l (List.mem_cons_self _ _))
  | l :: l2 :: ls, _, hnl => by
    have h1 : '\n' ∉ l := hnl l (List.mem_cons_self _ _)
    have h2 : ∀ x ∈ l2 :: ls, '\n' ∉ x := fun x hx => hnl x (List.mem_cons_of_mem _ hx)
    simp only [joinNl, splitNl_append_nl _ h1]
    rw [splitNl_joinNl (by simp) h2]

theorem removeCR_eq_self {s : List Char} (h : '\r' ∉ s) : removeCR s = s := by
  refine List.filter_eq_self.mpr (fun a ha => ?_)
  have hne : a ≠ '\r' := fun hc => h (hc ▸ ha)
  simpa using hne

theorem not_mem_joinNl {c : Char} (hc : c ≠ '\n') :
    ∀ {ls : List Line}, (∀ l ∈ ls, c ∉ l) → c ∉ joinNl ls
  | [], _ => by simp [joinNl]
  | [l], h => by simpa [joinNl] using h l (List.mem_cons_self _ _)
  | l :: l2 :: ls, h => by
    have h1 : c ∉ l := h l (List.mem_cons_self _ _)
    have h2 : ∀ x ∈ l2 :: ls, c ∉ x := fun x hx => h x (List.mem_cons_of_mem _ hx)
    simp only [joinNl, List.mem_append, List.mem_cons]
    push_neg
    exact ⟨h1, hc, not_mem_joinNl hc h2⟩

/-! ### C1: error characterization of `sanitizePatchTargets` -/

theorem scanSanitize_cons_offends (acc : List (List Char)) (line : List Char)
    (rest : List (List Char)) (h : LineOffends acc line) :
    scanSanitize acc (line :: rest) = .error (pathViolationMsg (headerCandidate line)) := by
  obtain ⟨hHdr, hne, hdev, hcond⟩ := h
  simp only [scanSanitize]
  rw [if_pos hHdr, if_neg (not_or.mpr ⟨hne, hdev⟩)]
  cases hn : normalizePatchPathStr (headerCandidate line) with
  | none => rfl
  | some nc =>
    dsimp only
    rcases hcond nc hn with hnil | ⟨hnc, hcand⟩
    · rw [if_pos hnil]
    · by_cases hnil : nc = []
      · rw [if_pos hnil]
      · rw [if_neg hnil, if_neg (not_or.mpr ⟨hnc, hcand⟩)]

theorem scanSanitize_cons_ok (acc : List (List Char)) (line : List Char)
    (rest : List (List Char)) (h : ¬ LineOffends acc line) :
    scanSanitize acc (line :: rest) = scanSanitize acc rest := by
  simp only [scanSanitize]
  by_cases h1 : startsWith oldHdr line = true ∨ startsWith newHdr line = true
  · rw [if_pos h1]
    by_cases h2 : headerCandidate line = [] ∨ headerCandidate line = devNull
    · rw [if_pos h2]
    · rw [if_neg h2]
      rw [not_or] at h2
      cases hn : normalizePatchPathStr (headerCandidate line) with
      | none =>
        exact absurd ⟨h1, h2.1, h2.2, fun nc hnc => by rw [hn] at hnc; cases hnc⟩ h
      | some nc =>
        dsimp only
        by_cases h3 : nc = []
        · exact absurd ⟨h1, h2.1, h2.2, fun nc' hnc => by
            rw [hn] at hnc
            cases hnc
            exact Or.inl h3⟩ h
        · by_cases h4 : nc ∈ acc ∨ headerCandidate line ∈ acc
          · rw [if_neg h3, if_pos h4]
          · exact absurd ⟨h1, h2.1, h2.2, fun nc' hnc => by
              rw [hn] at hnc
              cases hnc
              exact Or.inr (not_or.mp h4)⟩ h
  · rw [if_neg h1]

theorem scanSanitize_error_iff (acc : List (List Char)) :
    ∀ lines : List (List Char),
      (∃ e, scanSanitize acc lines = .error e) ↔ ∃ l ∈ lines, LineOffends acc l := by
  intro lines
  induction lines with
  | nil => simp [scanSanitize]
  | cons line rest ih =>
    by_cases h : LineOffends acc line
    · rw [scanSanitize_cons_offends acc line rest h]
      constructor
      · intro _
        exact ⟨line, List.mem_cons_self _ _, h⟩
      · intro _
        exact ⟨pathViolationMsg (headerCandidate line), rfl⟩
    · rw [scanSanitize_cons_ok acc line rest h, ih]
      constructor
      · rintro ⟨l, hl, hoff⟩
        exact ⟨l, List.mem_cons_of_mem _ hl, hoff⟩
      · rintro ⟨l, hl, hoff⟩
        rcases List.mem_cons.mp hl with hl | hl
        · exact absurd (hl ▸ hoff) h
        · exact ⟨l, hl, hoff⟩

theorem scanSanitize_error_msg (acc : List (List Char)) :
    ∀ (lines : List (List Char)) (e : String), scanSanitize acc lines = .error e →
      ∃ l ∈ lines, LineOffends acc l ∧ e = pathViolationMsg (headerCandidate l) := by
  intro lines
  induction lines with
  | nil => intro e he; cases he
  | cons line rest ih =>
    intro e he
    by_cases h : LineOffends acc line
    · rw [scanSanitize_cons_offends acc line rest h] at he
      refine ⟨line, List.mem_cons_self _ _, h, ?_⟩
      exact (Except.error.inj he).symm
    · rw [scanSanitize_cons_ok acc line rest h] at he
      obtain ⟨l, hl, hoff, hmsg⟩ := ih e he
      exact ⟨l, List.mem_cons_of_mem _ hl, hoff, hmsg⟩

/-- C1: `sanitizePatchTargets(patchText, targets)` throws (returns an
error) if and only if some line of `patchText` begins with `--- ` or
`+++ ` and its candidate (text after the 4-character prefix, up to the
first tab, trimmed) is non-empty, not `/dev/null`, and either normalizes
to null/empty or is — in both normalized and raw form — absent from the
accepted set built from `targets`; and every thrown error names the
offending candidate.  Otherwise the call returns unit. -/
theorem sanitizePatchTargets_error_characterization (patchText : List Char)
    (targets : List (List Char)) :
    ((∃ e, sanitizePatchTargets patchText targets = .error e) ↔
      ∃ line ∈ splitNl patchText,
        (startsWith oldHdr line = true ∨ startsWith newHdr line = true) ∧
        headerCandidate line ≠ [] ∧
        headerCandidate line ≠ devNull ∧
        ∀ nc, normalizePatchPathStr (headerCandidate line) = some nc →
          (nc = [] ∨ (nc ∉ acceptedPaths targets ∧ headerCandidate line ∉ acceptedPaths targets))) ∧
    ∀ e, sanitizePatchTargets patchText targets = .error e →
      ∃ line ∈ splitNl patchText, LineOffends (acceptedPaths targets) line ∧
        e = pathViolationMsg (headerCandidate line) := by
  constructor
  · exact scanSanitize_error_iff (acceptedPaths targets) (splitNl patchText)
  · exact scanSanitize_error_msg (acceptedPaths targets) (splitNl patchText)

/-- C1 witness: with `targets = ["a.txt"]`, the patch line `--- a/b.txt`
offends and the error names `a/b.txt`, while the allow-listed patch
`--- a/a.txt` / `+++ b/a.txt` passes. -/
theorem sanitizePatchTargets_error_characterization_witness :
    (∃ e, sanitizePatchTargets ("--- a/b.txt").data [("a.txt").data] = .error e) ∧
    sanitizePatchTargets ("--- a/b.txt").data [("a.txt").data] =
      .error (pathViolationMsg ("a/b.txt").data) ∧
    sanitizePatchTargets ("--- a/a.txt\n+++ b/a.txt").data [("a.txt").data] = .ok () := by
  refine ⟨?_, by rfl, by rfl⟩
  refine (sanitizePatchTargets_error_characterization ("--- a/b.txt").data
    [("a.txt").data]).1.mpr ?_
  refine ⟨("--- a/b.txt").data, by decide, by decide, by decide, by decide, ?_⟩
  intro nc hnc
  have : nc = ("b.txt").data := by
    have := hnc
    rw [show normalizePatchPathStr (headerCandidate ("--- a/b.txt").data)
        = some (("b.txt").data) from by decide] at this
    exact (Option.some_inj.mp this).symm
  subst this
  exact Or.inr (by decide)

/-! ### C2: the accepted path set double-normalizes its targets -/

/-- C2 counterexample: for the single target `a/b/x.txt` (one
normalization gives `b/x.txt`), the claim predicts the accepted set
`{b/x.txt, a/b/x.txt, b/b/x.txt}`; the code strips a prefix a second
time while building the set, producing `{x.txt, a/x.txt, b/x.txt}`, so
the two claimed members `a/b/x.txt` and `b/b/x.txt` are absent. -/
theorem acceptedPaths_double_normalization :
    acceptedPaths [("a/b/x.txt").data] =
      [("x.txt").data, ("a/x.txt").data, ("b/x.txt").data] ∧
    ("a/b/x.txt").data ∉ acceptedPaths [("a/b/x.txt").data] ∧
    ("b/b/x.txt").data ∉ acceptedPaths [("a/b/x.txt").data] := by
  refine ⟨by rfl, by decide, by decide⟩

/-- C2 (amended): the accepted set applies the normalization twice: each
non-empty target `t` is first pre-normalized to `normalize(t) ?? t`, and
the set-building loop normalizes that value again; whenever this second
normalization yields a non-empty path `p`, the set contains `p`, `a/`+`p`
and `b/`+`p`.  (So for `t = "a/b/x.txt"` the set is
`{x.txt, a/x.txt, b/x.txt}`, not `{b/x.txt, a/b/x.txt, b/b/x.txt}`.) -/
theorem acceptedPaths_mem (targets : List (List Char)) (t p : List Char)
    (ht : t ∈ targets) (hne : t ≠ [])
    (hp : normalizePatchPathStr ((normalizePatchPathStr t).getD t) = some p)
    (hpne : p ≠ []) :
    p ∈ acceptedPaths targets ∧
    ('a' :: '/' :: p) ∈ acceptedPaths targets ∧
    ('b' :: '/' :: p) ∈ acceptedPaths targets := by
  have hmem : (normalizePatchPathStr t).getD t ∈ normalizedTargets targets := by
    refine List.mem_map.mpr ⟨t, ?_, rfl⟩
    refine List.mem_filter.mpr ⟨ht, by simpa using hne⟩
  have hsub : ∀ x ∈ [p, 'a' :: '/' :: p, 'b' :: '/' :: p], x ∈ acceptedPaths targets := by
    intro x hx
    refine List.mem_flatMap.mpr ⟨(normalizePatchPathStr t).getD t, hmem, ?_⟩
    rw [hp]
    dsimp only
    rw [if_neg hpne]
    exact hx
  exact ⟨hsub p (by simp), hsub ('a' :: '/' :: p) (by simp),
    hsub ('b' :: '/' :: p) (by simp)⟩

/-- C2 (amended) witness: the double normalization of `a/b/x.txt` is
`x.txt`, and the set contains `x.txt`, `a/x.txt`, `b/x.txt`. -/
theorem acceptedPaths_mem_witness :
    ("x.txt").data ∈ acceptedPaths [("a/b/x.txt").data] ∧
    ('a' :: '/' :: ("x.txt").data) ∈ acceptedPaths [("a/b/x.txt").data] ∧
    ('b' :: '/' :: ("x.txt").data) ∈ acceptedPaths [("a/b/x.txt").data] :=
  acceptedPaths_mem [("a/b/x.txt").data] (("a/b/x.txt").data) (("x.txt").data)
    (by decide) (by decide) (by decide) (by decide)

/-! ### Lemmas about the hunk machine -/

theorem hdrAt_eq : hdrAt = '@' :: '@' :: ' ' :: [] := rfl

theorem oldHdr_eq : oldHdr = '-' :: '-' :: '-' :: ' ' :: [] := rfl

theorem newHdr_eq : newHdr = '+' :: '+' :: '+' :: ' ' :: [] := rfl

theorem noNl_eq :
    noNl = '\\' :: ' ' :: 'N' :: 'o' :: ' ' :: 'n' :: 'e' :: 'w' :: 'l' :: 'i' :: 'n' :: 'e' :: [] :=
  rfl

/-- The reduction of the hunk machine on a context-marker line (shared
helper; no assumption on the cursor, the out-of-range source line reads
as the empty string). -/
theorem runPatch_space_marker (src rest out : List Line) (idx : Nat) (payload : List Char) :
    runPatch src true ((' ' :: payload) :: rest) out idx =
      if payload = src.getD idx [] then
        runPatch src true rest (out ++ [src.getD idx []]) (idx + 1)
      else .error (ctxMismatchMsg payload (src.getD idx [])) := by
  simp only [runPatch, hdrAt_eq, oldHdr_eq, newHdr_eq, noNl_eq, startsWith_cons_cons,
    (by decide : (('@' == ' ')) = false), (by decide : (('-' == ' ')) = false),
    (by decide : (('+' == ' ')) = false), (by decide : (('\\' == ' ')) = false),
    Bool.false_and, if_true]
  simp

/-- C3: inside a hunk body, a line whose first character is the context
marker `' '` compares its payload against the source line at the current
cursor: on a mismatch the run aborts with a "Context mismatch" error
reporting both expected and actual text; on a match the line is appended
to the output and the cursor advances by exactly one. -/
theorem context_line_step (src rest out : List Line) (idx : Nat) (payload : List Char)
    (h : idx < src.length) :
    runPatch src true ((' ' :: payload) :: rest) out idx =
      if payload = src.getD idx [] then
        runPatch src true rest (out ++ [src.getD idx []]) (idx + 1)
      else .error (ctxMismatchMsg payload (src.getD idx [])) :=
  runPatch_space_marker src rest out idx payload

/-- C3 witness: at source `["x"]`, cursor 0, the matching payload `"x"`
appends and advances, instantiating the step theorem. -/
theorem context_line_step_witness :
    (0 : Nat) < [("x").data].length ∧
    runPatch [("x").data] true ((' ' :: ("x").data) :: []) [] 0 =
      if ("x").data = [("x").data].getD 0 [] then
        runPatch [("x").data] true [] ([] ++ [[("x").data].getD 0 []]) (0 + 1)
      else .error (ctxMismatchMsg (("x").data) ([("x").data].getD 0 [])) :=
  ⟨by decide, context_line_step [("x").data] [] [] 0 (("x").data) (by decide)⟩

/-- C6 counterexample: applying the diff `@@ -1,2 +1,2 @@ / " a" / "" / " b"`
to `"a\nb"` yields `"a\nb"` — the completely empty hunk-body line is
skipped and contributes nothing — whereas the claim (one empty output
line per empty hunk line) would yield `"a\n\nb"`. -/
theorem empty_hunk_line_counterexample :
    applyUnifiedDiff ("a\nb").data ("@@ -1,2 +1,2 @@\n a\n\n b").data =
      .ok (("a\nb").data) ∧
    applyUnifiedDiff ("a\nb").data ("@@ -1,2 +1,2 @@\n a\n\n b").data ≠
      .ok (("a\n\nb").data) := by
  constructor
  · rfl
  · intro h
    rw [(by rfl : applyUnifiedDiff ("a\nb").data ("@@ -1,2 +1,2 @@\n a\n\n b").data =
      Except.ok (("a\nb").data))] at h
    exact absurd (Except.ok.inj h) (by decide)

/-- C6 (amended): a completely empty line inside a hunk body is skipped
outright: it contributes no output line and does not consume any source
line. -/
theorem empty_hunk_line_skipped (src rest out : List Line) (idx : Nat) :
    runPatch src true ([] :: rest) out idx = runPatch src true rest out idx := rfl

/-- C8: when the cursor is at or past the end of the source, a context
(`' '`) or deletion (`'-'`) hunk-body line compares its payload against
the empty string: an empty payload succeeds (the context line appends an
empty line and advances the cursor; the deletion line just advances the
cursor), and a non-empty payload fails with the corresponding mismatch
error. -/
theorem past_end_step (src rest out : List Line) (idx : Nat) (payload : List Char)
    (h : src.length ≤ idx)
    (hnb : startsWith oldHdr ('-' :: payload) = false) :
    (runPatch src true ((' ' :: payload) :: rest) out idx =
      if payload = [] then runPatch src true rest (out ++ [[]]) (idx + 1)
      else .error (ctxMismatchMsg payload [])) ∧
    (runPatch src true (('-' :: payload) :: rest) out idx =
      if payload = [] then runPatch src true rest out (idx + 1)
      else .error (delMismatchMsg payload [])) := by
  have hd : src.getD idx [] = [] := List.getD_eq_default _ _ h
  rw [oldHdr_eq, startsWith_cons_cons] at hnb
  simp only [(by decide : (('-' == '-')) = true), Bool.true_and] at hnb
  constructor
  · simp only [runPatch, hdrAt_eq, oldHdr_eq, newHdr_eq, noNl_eq, startsWith_cons_cons,
      (by decide : (('@' == ' ')) = false), (by decide : (('-' == ' ')) = false),
      (by decide : (('+' == ' ')) = false), (by decide : (('\\' == ' ')) = false),
      Bool.false_and, hd]
    simp
  · simp only [runPatch, hdrAt_eq, oldHdr_eq, newHdr_eq, noNl_eq, startsWith_cons_cons,
      (by decide : (('@' == '-')) = false), (by decide : (('+' == '-')) = false),
      (by decide : (('\\' == '-')) = false), (by decide : (('-' == '-')) = true),
      Bool.false_and, Bool.true_and, hd, hnb]
    simp

/-- C8 witness: with an empty source list (cursor 0 = length), the empty
context payload succeeds and the non-empty deletion payload `"x"` fails. -/
theorem past_end_step_witness :
    ([] : List Line).length ≤ 0 ∧
    startsWith oldHdr ('-' :: ("x").data) = false ∧
    (runPatch [] true ((' ' :: ([] : List Char)) :: []) [] 0 =
      if ([] : List Char) = [] then runPatch [] true [] ([] ++ [[]]) (0 + 1)
      else .error (ctxMismatchMsg [] [])) ∧
    (runPatch [] true (('-' :: ("x").data) :: []) [] 0 =
      if ("x").data = [] then runPatch [] true [] [] (0 + 1)
      else .error (delMismatchMsg (("x").data) [])) :=
  ⟨by decide, by decide,
    (past_end_step [] [] [] 0 [] (by decide) (by decide)).1,
    (past_end_step [] [] [] 0 (("x").data) (by decide) (by decide)).2⟩

/-- The whitespace marker characters are none of the characters the other
hunk-body branches test for. -/
theorem jsWs_ne_special {c : Char} (h : jsWs c = true) :
    c ≠ '@' ∧ c ≠ '-' ∧ c ≠ '+' ∧ c ≠ '\\' := by
  have hmem : c ∈ jsWhitespaceChars := of_decide_eq_true h
  fin_cases hmem <;> exact (by decide)

/-- C10: a non-empty hunk-body line whose first character is whitespace
other than a single space (e.g. a tab) is not rejected: it appends one
empty line to the output, discards the rest of the line, and consumes no
source line. -/
theorem ws_marker_step (src rest out : List Line) (idx : Nat) (payload : List Char)
    (c : Char) (hws : jsWs c = true) (hsp : c ≠ ' ') :
    runPatch src true ((c :: payload) :: rest) out idx =
      runPatch src true rest (out ++ [[]]) idx := by
  obtain ⟨h1, h2, h3, h4⟩ := jsWs_ne_special hws
  simp only [runPatch, hdrAt_eq, oldHdr_eq, newHdr_eq, noNl_eq, startsWith_cons_cons,
    beq_eq_false_iff_ne.mpr (Ne.symm h1), beq_eq_false_iff_ne.mpr (Ne.symm h2),
    beq_eq_false_iff_ne.mpr (Ne.symm h3), beq_eq_false_iff_ne.mpr (Ne.symm h4),
    Bool.false_and, hws]
  simp [hsp, h2, h3]

/-- C10 witness: a tab-marker line `"\tignored"` at the top of a hunk body. -/
theorem ws_marker_step_witness :
    jsWs '\t' = true ∧ '\t' ≠ ' ' ∧
    runPatch [("a").data] true (('\t' :: ("ignored").data) :: []) [] 0 =
      runPatch [("a").data] true [] ([] ++ [[]]) 0 :=
  ⟨by decide, by decide,
    ws_marker_step [("a").data] [] [] 0 (("ignored").data) '\t' (by decide) (by decide)⟩

theorem catchUpAux_ok (src : List Line) :
    ∀ (k : Nat) (out : List Line) (idx : Nat), idx + k ≤ src.length →
      catchUpAux src k out idx = .ok (out ++ (src.drop idx).take k, idx + k) := by
  intro k
  induction k with
  | zero => intro out idx _; simp [catchUpAux]
  | succ n ih =>
    intro out idx hk
    have hlt : idx < src.length := by omega
    simp only [catchUpAux, List.get?_eq_get hlt]
    rw [ih (out ++ [src.get ⟨idx, hlt⟩]) (idx + 1) (by omega)]
    rw [List.drop_eq_getElem_cons hlt]
    simp only [List.take_succ_cons, List.append_assoc, List.singleton_append, List.get_eq_getElem]
    congr 2
    omega

theorem catchUpAux_err (src : List Line) :
    ∀ (k : Nat) (out : List Line) (idx : Nat), 0 < k → src.length < idx + k →
      catchUpAux src k out idx = .error hunkExceedsMsg := by
  intro k
  induction k with
  | zero => intro out idx h0 _; omega
  | succ n ih =>
    intro out idx _ hk
    by_cases hlt : idx < src.length
    · simp only [catchUpAux, List.get?_eq_get hlt]
      exact ih (out ++ [src.get ⟨idx, hlt⟩]) (idx + 1) (by omega) (by omega)
    · simp only [catchUpAux, List.get?_eq_none.mpr (by omega : src.length ≤ idx)]

/-- C4: the pre-hunk catch-up copies source lines verbatim from the
cursor up to `startOld = max(oldStart - 1, 0)`; when `startOld` exceeds
both the cursor and the number of source lines the copy runs off the end
of the source and the call fails with "Patch hunk exceeds original file
length." — in particular an adversarial hunk header with an astronomical
`oldStart` makes `applyUnifiedDiff` fail with exactly this error rather
than produce output. -/
theorem catchUp_characterization :
    (∀ (src out : List Line) (idx startOld : Nat), startOld ≤ max idx src.length →
      catchUp src startOld out idx =
        .ok (out ++ (src.drop idx).take (startOld - idx), max startOld idx)) ∧
    (∀ (src out : List Line) (idx startOld : Nat), max idx src.length < startOld →
      catchUp src startOld out idx = .error hunkExceedsMsg) ∧
    applyUnifiedDiff ("line1").data ("@@ -100000000000000 +1 @@\n+new").data =
      .error hunkExceedsMsg := by
  refine ⟨?_, ?_, by rfl⟩
  · intro src out idx startOld hle
    unfold catchUp
    by_cases hidx : startOld ≤ idx
    · have hz : startOld - idx = 0 := by omega
      rw [hz]
      simp only [catchUpAux, List.take_zero, List.append_nil]
      congr 2
      omega
    · have hlen : idx + (startOld - idx) ≤ src.length := by omega
      rw [catchUpAux_ok src (startOld - idx) out idx hlen]
      congr 2
      omega
  · intro src out idx startOld hgt
    unfold catchUp
    exact catchUpAux_err src (startOld - idx) out idx (by omega) (by omega)

/-- C4 witness: on the one-line source `["a"]`, `startOld = 5` fails with
the length error and `startOld = 1` copies the single line. -/
theorem catchUp_characterization_witness :
    catchUp [("a").data] 5 [] 0 = .error hunkExceedsMsg ∧
    catchUp [("a").data] 1 [] 0 =
      .ok ([] ++ (([("a").data]).drop 0).take (1 - 0), max 1 0) :=
  ⟨catchUp_characterization.2.1 [("a").data] [] 0 5 (by decide),
    catchUp_characterization.1 [("a").data] [] 0 1 (by decide)⟩

/-! ### C5: identity property -/

/-- The identity diff of C5: a valid hunk header starting at line 1
followed by every line of the (LF-normalized) text prefixed with the
context marker `' '`. -/
def identityDiffText (t : List Char) : List Char :=
  joinNl (("@@ -1 +1 @@").data :: (splitNl (removeCR t)).map (fun l => ' ' :: l))

theorem runPatch_context_aux (src : List Line) :
    ∀ (n k : Nat) (out : List Line), src.length - k = n → k ≤ src.length →
      runPatch src true ((src.drop k).map (fun l => ' ' :: l)) out k =
        .ok (out ++ src.drop k, src.length) := by
  intro n
  induction n with
  | zero =>
    intro k out hn hk
    have hlen : k = src.length := by omega
    subst hlen
    simp [List.drop_length, runPatch]
  | succ n ih =>
    intro k out hn hk
    have hlt : k < src.length := by omega
    rw [List.drop_eq_getElem_cons hlt, List.map_cons, runPatch_space_marker]
    rw [if_pos (List.getD_eq_getElem src [] hlt).symm]
    rw [(List.getD_eq_getElem src [] hlt : src.getD k [] = src[k])]
    rw [ih (k + 1) (out ++ [src[k]]) (by omega) (by omega)]
    simp

/-- C5: for every CR-free text `T`, applying the diff made of a valid
hunk header starting at line 1 followed by every line of `T` prefixed
with the context marker `' '` returns `T` unchanged. -/
theorem apply_identity (t : List Char) (h : '\r' ∉ t) :
    applyUnifiedDiff t (identityDiffText t) = .ok t := by
  have hbase : removeCR t = t := removeCR_eq_self h
  have hnocr : '\r' ∉ identityDiffText t := by
    apply not_mem_joinNl (by decide)
    intro l hl
    rcases List.mem_cons.mp hl with hl | hl
    · subst hl; decide
    · obtain ⟨l0, hl0, rfl⟩ := List.mem_map.mp hl
      intro hmem
      rcases List.mem_cons.mp hmem with hmem | hmem
      · exact absurd hmem (by decide)
      · exact absurd (hbase ▸ mem_of_mem_splitNl hl0 hmem) h
  have hsplit : splitNl (removeCR (identityDiffText t)) =
      ("@@ -1 +1 @@").data :: (splitNl t).map (fun l => ' ' :: l) := by
    rw [removeCR_eq_self hnocr]
    unfold identityDiffText
    rw [hbase]
    apply splitNl_joinNl (by simp)
    intro l hl
    rcases List.mem_cons.mp hl with hl | hl
    · subst hl; decide
    · obtain ⟨l0, hl0, rfl⟩ := List.mem_map.mp hl
      intro hmem
      rcases List.mem_cons.mp hmem with hmem | hmem
      · exact absurd hmem (by decide)
      · exact splitNl_no_nl hl0 hmem
  have hbody : runPatch (splitNl t) false
      (("@@ -1 +1 @@").data :: (splitNl t).map (fun l => ' ' :: l)) [] 0 =
      runPatch (splitNl t) true ((splitNl t).map (fun l => ' ' :: l)) [] 0 := rfl
  have hrun : runPatch (splitNl t) true ((splitNl t).map (fun l => ' ' :: l)) [] 0 =
      .ok ([] ++ (splitNl t).drop 0, (splitNl t).length) := by
    have := runPatch_context_aux (splitNl t) (splitNl t).length 0 [] (by omega) (by omega)
    simpa using this
  simp only [applyUnifiedDiff]
  rw [hsplit, hbase, hbody, hrun]
  simp [joinNl_splitNl]

/-- C5 witness: the identity diff of `"a\nb"` returns `"a\nb"`. -/
theorem apply_identity_witness :
    '\r' ∉ ("a\nb").data ∧
    applyUnifiedDiff ("a\nb").data (identityDiffText (("a\nb").data)) =
      .ok (("a\nb").data) :=
  ⟨by decide, apply_identity (("a\nb").data) (by decide)⟩

/-! ### C7: split invariant -/

/-- C7: every segment returned by `splitUnifiedDiffByFile` has a non-null
`rawOldPath` or a non-null `rawNewPath` (the final filter drops any
other candidate, and pure preamble is never recorded); the function is
total — it throws on no input. -/
theorem splitUnifiedDiffByFile_raw_nonnull (patchText : List Char) :
    ∀ seg ∈ splitUnifiedDiffByFile patchText,
      seg.rawOldPath ≠ none ∨ seg.rawNewPath ≠ none := by
  intro seg hseg
  unfold splitUnifiedDiffByFile at hseg
  have hmem := List.mem_filter.mp hseg
  simpa using hmem.2

/-- C7 witness: the single segment of a concrete one-file diff, with its
non-null raw paths. -/
theorem splitUnifiedDiffByFile_raw_nonnull_witness :
    ({ patchText := ("--- a/x\n+++ b/x\n@@ -1 +1 @@\n-p\n+q").data,
       oldPath := some (("x").data), newPath := some (("x").data),
       rawOldPath := some (("a/x").data), rawNewPath := some (("b/x").data) } :
      ParsedFilePatch) ∈
      splitUnifiedDiffByFile (("--- a/x\n+++ b/x\n@@ -1 +1 @@\n-p\n+q").data) ∧
    (some (("a/x").data) ≠ (none : Option (List Char)) ∨
      some (("b/x").data) ≠ (none : Option (List Char))) :=
  ⟨by decide,
    splitUnifiedDiffByFile_raw_nonnull (("--- a/x\n+++ b/x\n@@ -1 +1 @@\n-p\n+q").data)
      { patchText := ("--- a/x\n+++ b/x\n@@ -1 +1 @@\n-p\n+q").data,
        oldPath := some (("x").data), newPath := some (("x").data),
        rawOldPath := some (("a/x").data), rawNewPath := some (("b/x").data) }
      (by decide)⟩

/-! ### C9: a diff with no hunk header returns the CR-stripped base -/

theorem runPatch_no_header (src : List Line) :
    ∀ (ls : List Line) (out : List Line) (idx : Nat),
      (∀ l ∈ ls, startsWith hdrAt l = false) →
      runPatch src false ls out idx = .ok (out, idx) := by
  intro ls
  induction ls with
  | nil => intro out idx _; rfl
  | cons line rest ih =>
    intro out idx h
    have hline := h line (List.mem_cons_self _ _)
    simp only [runPatch, hline, Bool.false_eq_true, if_false]
    exact ih out idx (fun l hl => h l (List.mem_cons_of_mem _ hl))

/-- C9: whenever no line of the (CR-stripped) diff begins with `"@@ "`,
`applyUnifiedDiff(baseText, diffText)` returns `baseText` with all
carriage returns removed — the non-hunk lines of the diff never affect
the output. -/
theorem no_hunk_identity (base diff : List Char)
    (h : ∀ l ∈ splitNl (removeCR diff), startsWith hdrAt l = false) :
    applyUnifiedDiff base diff = .ok (removeCR base) := by
  simp only [applyUnifiedDiff]
  rw [runPatch_no_header _ _ _ _ h]
  simp [joinNl_splitNl]

/-- C9 witness: a header-only diff applied to `"x\r\ny"` returns `"x\ny"`. -/
theorem no_hunk_identity_witness :
    (∀ l ∈ splitNl (removeCR (("--- a\n+++ b").data)), startsWith hdrAt l = false) ∧
    applyUnifiedDiff ("x\r\ny").data ("--- a\n+++ b").data =
      .ok (removeCR (("x\r\ny").data)) :=
  ⟨by decide, no_hunk_identity (("x\r\ny").data) (("--- a\n+++ b").data) (by decide)⟩

end GambitPatch
